import Mathlib

/-!
Shallow embedding of the ddj-api server (src/server.js, src/tickets.js,
src/initDb.js).  JavaScript numbers carrying money, counts and times are
modeled as integers; the float weights 0.25, 0.10, 0.65 and the category
shares 0.45, 0.25, 0.15, 0.10, 0.05 are modeled exactly as rationals n/100,
so `Math.floor(x * 0.45)` becomes `Int.fdiv (x * 45) 100` (JS `Math.floor`
is flooring also on negatives, hence `fdiv`).  SQL tables are modeled as
lists and finite maps, the SHA-256 keying of gift codes by the plaintext
code itself (the hash is injective for the purposes of the lookup).
-/

namespace DDJ

/-- Timing parameters: `roundSeconds`, `closeBetsAt`, `anchorMs` from src/server.js. -/
structure TimingConfig where
  roundSeconds : Int
  closeBetsAt : Int
  anchorMs : Int
deriving DecidableEq

/-- Result shape of `getRoundInfo` / `getRoundById` (src/server.js lines 56-79, 141-152). -/
structure RoundInfo where
  roundId : Int
  roundStartMs : Int
  roundEndMs : Int
  closeAtMs : Int
  betsOpen : Bool
  secondsLeft : Int
  secondsToClose : Int
deriving DecidableEq

/-- Model of `Math.ceil(a / b)` for integer `a` and positive integer `b`. -/
def ceilDiv (a b : Int) : Int := -(Int.fdiv (-a) b)

/-- Embedding of `getRoundInfo` (src/server.js lines 56-79). -/
def getRoundInfo (cfg : TimingConfig) (nowMs : Int) : RoundInfo :=
  let roundMs := cfg.roundSeconds * 1000
  let roundId := Int.fdiv (nowMs - cfg.anchorMs) roundMs
  let roundStartMs := cfg.anchorMs + roundId * roundMs
  let roundEndMs := roundStartMs + roundMs
  let closeAtMs := roundEndMs - cfg.closeBetsAt * 1000
  { roundId := roundId
    roundStartMs := roundStartMs
    roundEndMs := roundEndMs
    closeAtMs := closeAtMs
    betsOpen := decide (nowMs < closeAtMs)
    secondsLeft := max 0 (ceilDiv (roundEndMs - nowMs) 1000)
    secondsToClose := max 0 (ceilDiv (closeAtMs - nowMs) 1000) }

/-- Embedding of `getRoundById` (src/server.js lines 141-152). -/
def getRoundById (cfg : TimingConfig) (roundId : Int) (nowMs : Int) : RoundInfo :=
  let roundMs := cfg.roundSeconds * 1000
  let roundStartMs := cfg.anchorMs + roundId * roundMs
  let roundEndMs := roundStartMs + roundMs
  let closeAtMs := roundEndMs - cfg.closeBetsAt * 1000
  { roundId := roundId
    roundStartMs := roundStartMs
    roundEndMs := roundEndMs
    closeAtMs := closeAtMs
    betsOpen := decide (nowMs < closeAtMs)
    secondsLeft := max 0 (ceilDiv (roundEndMs - nowMs) 1000)
    secondsToClose := max 0 (ceilDiv (closeAtMs - nowMs) 1000) }

/-- Category keys of `POT_SHARES` in source (insertion) order
    (src/server.js lines 132-138): five categories. -/
def CATS : List String := ["4+1", "4+0", "3+1", "3+0", "1+1"]

/-- `POT_SHARES` (src/server.js lines 132-138) with the float shares
    0.45, 0.25, 0.15, 0.10, 0.05 written as hundredths. -/
def POT_SHARES : List (String × Int) :=
  [("4+1", 45), ("4+0", 25), ("3+1", 15), ("3+0", 10), ("1+1", 5)]

/-- Share of a category in hundredths, looked up in `POT_SHARES`. -/
def potShare (cat : String) : Int := ((POT_SHARES.lookup cat).getD 0)

/-- Embedding of `categoryForBet` (src/server.js lines 197-213).  `betNums` is
    `null` or an array; `betChance` is `null` or a number; `k` counts the bet
    numbers present in the draw (a JS `Set` membership test); `c` is 1 exactly
    when the chance matches (`null === n` is false). -/
def categoryForBet : Option (List Int) → Option Int → List Int → Int →
    Option String
  | none, _, _, _ => none
  | some ns, betChance, drawNums, drawChance =>
    if ns.length ≠ 4 then none
    else
      let k := (ns.filter (fun n => decide (n ∈ drawNums))).length
      let c : Nat := if betChance = some drawChance then 1 else 0
      if k = 4 ∧ c = 1 then some "4+1"
      else if k = 4 ∧ c = 0 then some "4+0"
      else if k = 3 ∧ c = 1 then some "3+1"
      else if k = 3 ∧ c = 0 then some "3+0"
      else if k = 1 ∧ c = 1 then some "1+1"
      else none

/-- Dedup preserving first occurrence, the effect of `[...new Set(parsed)]`
    (src/server.js line 452). -/
def dedupFirst (l : List Int) : List Int :=
  l.foldl (fun acc x => if x ∈ acc then acc else acc ++ [x]) []

/-- Nums validation of POST /api/bet (src/server.js lines 450-461): dedup, require
    exactly 4 distinct values, each an integer in 1..20, and return them sorted.
    Returns `none` on a 400 BadRequest. -/
def betNumsCheck (numsRaw : List Int) : Option (List Int) :=
  let unique := dedupFirst numsRaw
  if unique.length ≠ 4 then none
  else if unique.all (fun n => decide (1 ≤ n) && decide (n ≤ 20)) then
    some (unique.mergeSort (fun a b => decide (a ≤ b)))
  else none

/-- Display key `"n1-n2-n3-n4#chance"` (src/server.js line 470). -/
def choiceKeyOf (nums : List Int) (chance : Int) : String :=
  String.intercalate "-" (nums.map toString) ++ "#" ++ toString chance

/-- Parsed bet body: `nums`/`chance` are `null` for the legacy choice format. -/
structure BetRequestParse where
  nums : Option (List Int)
  chance : Option Int
  choiceKey : String
deriving DecidableEq

/-- Uppercasing as `String.toUpperCase` on ASCII input. -/
def jsUpper (s : String) : String := String.mk (s.data.map Char.toUpper)

/-- Trimming as `String.trim` on ASCII input: leading and trailing whitespace
    characters removed. -/
def jsTrim (s : String) : String :=
  String.mk (((s.data.dropWhile Char.isWhitespace).reverse.dropWhile
    Char.isWhitespace).reverse)

/-- Model of `String(x).trim().toUpperCase()` (src/server.js lines 332, 444). -/
def jsNormalize (s : String) : String := jsUpper (jsTrim s)

/-- Embedding of the nums/chance/choice parsing of POST /api/bet
    (src/server.js lines 440-476).  `numsRaw` is `none` when the request body
    has no `nums` array; then the legacy `choice` field must normalize to
    "A" or "B" and the bet stores `nums = null`, `chance = null`. -/
def parseBetRequest : Option (List Int) → Option Int → String →
    Option BetRequestParse
  | some raw, chanceRaw, _ =>
    (match betNumsCheck raw with
     | none => none
     | some nums =>
       match chanceRaw with
       | none => none
       | some ch =>
         if 1 ≤ ch ∧ ch ≤ 5 then some ⟨some nums, some ch, choiceKeyOf nums ch⟩
         else none)
  | none, _, choiceRaw =>
    if jsNormalize choiceRaw = "" then none
    else if jsNormalize choiceRaw = "A" ∨ jsNormalize choiceRaw = "B" then
      some ⟨none, none, jsNormalize choiceRaw⟩
    else none

/-- Alphabet of generated gift codes (src/tickets.js line 4). -/
def ALPHABET : String := "ABCDEFGHJKLMNPQRSTUVWXYZ23456789"

/-- Embedding of `generateTicketCode(12)` (src/tickets.js lines 6-13) over the
    12 random bytes it draws. -/
def generateTicketCode (bytes : List Nat) : String :=
  String.mk (bytes.map (fun b => ALPHABET.data.getD (b % ALPHABET.data.length) 'A'))

/-- Redeem code format check of POST /api/player/redeem (src/server.js line 335):
    the regex `/^[A-Z0-9]{12}$/` applied to the trimmed, uppercased code. -/
def redeemFormatOk (code : String) : Bool :=
  code.length == 12 &&
    code.data.all (fun c => ('A' ≤ c && c ≤ 'Z') || ('0' ≤ c && c ≤ '9'))

/-- Row of the `bets` table (src/initDb.js). -/
structure Bet where
  id : Nat
  playerId : Nat
  roundId : Int
  nums : Option (List Int)
  chance : Option Int
  amount : Int
  settled : Bool
  payout : Int
  category : Option String
deriving DecidableEq

/-- Row of the `dos_ledger` table (src/initDb.js). -/
structure LedgerEntry where
  playerId : Nat
  kind : String
  amount : Int
deriving DecidableEq

/-- Row of the `gift_codes` table; the `code_hash` key is modeled by the
    plaintext code (SHA-256 keying, injective for lookups). -/
structure GiftCode where
  id : Nat
  code : String
  value : Int
  status : String
  expiresAt : Option Int
deriving DecidableEq

/-- The single `game_bank` row with id 1 (src/initDb.js, migration part). -/
structure Bank where
  carry : Int
  adminBalance : Int
deriving DecidableEq

/-- Row of the `rounds` table (src/initDb.js migration); `settled` models
    `settled_at IS NOT NULL`. -/
structure RoundRow where
  roundId : Int
  drawNums : List Int
  drawChance : Int
  totalBets : Int
  potTotal : Int
  adminTake : Int
  carryIn : Int
  carryOut : Int
  settled : Bool
deriving DecidableEq

/-- Durable state: the `players` table is modeled by the three maps
    `hasPlayer`, `active`, `balances`; the other tables by lists / a record. -/
structure GameState where
  hasPlayer : Nat → Bool
  active : Nat → Bool
  balances : Nat → Int
  ledger : List LedgerEntry
  bets : List Bet
  giftCodes : List GiftCode
  bank : Bank
  rounds : List RoundRow

/-- One payout record `{betId, playerId, amount, category}` of the settlement
    distribution loop (src/server.js lines 643-663). -/
structure Payout where
  betId : Nat
  playerId : Nat
  amount : Int
  category : String
deriving DecidableEq

/-- Effect of POST /api/player/signup (src/server.js lines 294-327): insert the
    player with `balance_dos = SIGNUP_BONUS_DOS` and, when the bonus is positive,
    append a BONUS_SIGNUP ledger row. -/
def signupTx (bonus : Int) (pid : Nat) (s : GameState) : GameState :=
  let s1 : GameState :=
    { s with
      hasPlayer := fun q => if q = pid then true else s.hasPlayer q
      active := fun q => if q = pid then true else s.active q
      balances := fun q => if q = pid then bonus else s.balances q }
  if 0 < bonus then
    { s1 with ledger := s1.ledger ++ [⟨pid, "BONUS_SIGNUP", bonus⟩] }
  else s1

/-- Responses of POST /api/bet. -/
inductive BetResp where
  | closed
  | badRequest
  | notFound
  | forbidden
  | insufficient
  | ok (roundId : Int) (betId : Nat)
deriving DecidableEq

/-- Transaction body of POST /api/bet (src/server.js lines 478-545): lock the
    player, check status and balance, debit, insert the bet, append the BET
    ledger row. -/
def placeBetTx (roundId : Int) (pid : Nat) (cost : Int)
    (spec : BetRequestParse) (newBetId : Nat) (s : GameState) :
    BetResp × GameState :=
  if s.hasPlayer pid = false then (.notFound, s)
  else if s.active pid = false then (.forbidden, s)
  else
    let balanceBefore := s.balances pid
    if balanceBefore < cost then (.insufficient, s)
    else
      (.ok roundId newBetId,
        { s with
          balances := fun q => if q = pid then s.balances q - cost else s.balances q
          bets := s.bets ++
            [⟨newBetId, pid, roundId, spec.nums, spec.chance, cost, false, 0, none⟩]
          ledger := s.ledger ++ [⟨pid, "BET", -cost⟩] })

/-- Embedding of POST /api/bet (src/server.js lines 416-553): timing gate,
    validation, then the transaction.  `newBetId` models the serial id the
    insert returns. -/
def placeBetHandler (cfg : TimingConfig) (nowMs : Int) (playerId : Int)
    (amount : Int) (numsRaw : Option (List Int)) (chanceRaw : Option Int)
    (choiceRaw : String) (newBetId : Nat) (s : GameState) :
    BetResp × GameState :=
  let round := getRoundInfo cfg nowMs
  if round.betsOpen = false then (.closed, s)
  else if ¬ 0 < playerId then (.badRequest, s)
  else if ¬ 0 < amount then (.badRequest, s)
  else
    match parseBetRequest numsRaw chanceRaw choiceRaw with
    | none => (.badRequest, s)
    | some spec =>
      placeBetTx round.roundId playerId.toNat amount spec newBetId s

/-- Responses of POST /api/player/redeem. -/
inductive RedeemResp where
  | badRequest
  | notFound
  | forbidden
  | conflict
  | ok (added : Int)
deriving DecidableEq

/-- Gift-code part of the redeem transaction (src/server.js lines 354-399):
    check ACTIVE and not expired, credit the player, mark the code REDEEMED,
    append the REDEEM ledger row. -/
def redeemApply (nowMs : Int) (pid : Nat) (g : GiftCode) (s : GameState) :
    RedeemResp × GameState :=
  if g.status ≠ "ACTIVE" then (.conflict, s)
  else if (match g.expiresAt with
           | some e => decide (e < nowMs)
           | none => false) then (.conflict, s)
  else
    (.ok g.value,
      { s with
        balances := fun q => if q = pid then s.balances q + g.value else s.balances q
        giftCodes := s.giftCodes.map
          (fun q => if q.id = g.id then { q with status := "REDEEMED" } else q)
        ledger := s.ledger ++ [⟨pid, "REDEEM", g.value⟩] })

/-- Embedding of POST /api/player/redeem (src/server.js lines 330-410):
    normalize and format-check the code, check the player, lock the gift code,
    then apply the redemption. -/
def redeemHandler (nowMs : Int) (playerId : Int) (codeRaw : String)
    (s : GameState) : RedeemResp × GameState :=
  let code := jsNormalize codeRaw
  if ¬ 0 < playerId then (.badRequest, s)
  else if redeemFormatOk code = false then (.badRequest, s)
  else
    let pid := playerId.toNat
    if s.hasPlayer pid = false then (.notFound, s)
    else if s.active pid = false then (.forbidden, s)
    else
      match s.giftCodes.find? (fun g => g.code == code) with
      | none => (.notFound, s)
      | some g => redeemApply nowMs pid g s

/-- One step of the settlement distribution loop
    (src/server.js lines 646-663): a category with no winners reports its whole
    `catPot` to carry; otherwise each winner is paid
    `perBet = Math.floor(catPot / winners.length)` and the remainder is carried. -/
def distStep (potTotal : Int) (winners : String → List Bet)
    (acc : Int × List Payout) (cat : String) : Int × List Payout :=
  let catPot := Int.fdiv (potTotal * potShare cat) 100
  let ws := winners cat
  if ws.length = 0 then (acc.1 + catPot, acc.2)
  else
    let perBet := Int.fdiv catPot (ws.length : Int)
    let remainder := catPot - perBet * (ws.length : Int)
    (acc.1 + remainder,
      acc.2 ++ ws.map (fun b => ⟨b.id, b.playerId, perBet, cat⟩))

/-- The whole distribution loop over `Object.keys(POT_SHARES)`
    (src/server.js lines 643-663), seeded with `carryOut = carryBaseOut`. -/
def distribute (carryBase potTotal : Int) (winners : String → List Bet) :
    Int × List Payout :=
  CATS.foldl (distStep potTotal winners) (carryBase, [])

/-- Step 7 of settlement, first UPDATE (src/server.js lines 674-679): every
    unsettled bet of the round becomes settled with payout 0 and category NULL. -/
def clearRound (r : Int) (bets : List Bet) : List Bet :=
  bets.map (fun b =>
    if b.roundId == r && !b.settled then
      { b with settled := true, payout := 0, category := none }
    else b)

/-- Step 7 of settlement, per-payout UPDATE (src/server.js lines 682-689). -/
def applyPayoutMark (bets : List Bet) (p : Payout) : List Bet :=
  bets.map (fun b =>
    if b.id == p.betId then { b with payout := p.amount, category := some p.category }
    else b)

/-- Step 7 of settlement in source order: clear the round, then apply every
    payout mark. -/
def markSettled (r : Int) (payouts : List Payout) (bets : List Bet) : List Bet :=
  payouts.foldl applyPayoutMark (clearRound r bets)

/-- JS `Map` aggregation step for `byPlayer` (src/server.js lines 692-695):
    add to an existing key or append a new one (insertion order). -/
def insertGain (m : List (Nat × Int)) (pid : Nat) (amt : Int) : List (Nat × Int) :=
  match m with
  | [] => [(pid, amt)]
  | (p, a) :: rest =>
    if p = pid then (p, a + amt) :: rest else (p, a) :: insertGain rest pid amt

/-- The `byPlayer` map of settlement step 8 (src/server.js lines 692-695). -/
def byPlayer (payouts : List Payout) : List (Nat × Int) :=
  payouts.foldl (fun m p => insertGain m p.playerId p.amount) []

/-- Credit one aggregated player gain (src/server.js lines 697-710):
    gains `<= 0` are skipped; otherwise balance is credited and a WIN ledger
    row is appended. -/
def creditStep (st : GameState) (pg : Nat × Int) : GameState :=
  if pg.2 ≤ 0 then st
  else
    { st with
      balances := fun q => if q = pg.1 then st.balances q + pg.2 else st.balances q
      ledger := st.ledger ++ [⟨pg.1, "WIN", pg.2⟩] }

/-- Step 8 of settlement: credit every aggregated player gain in map order. -/
def applyCredits (bp : List (Nat × Int)) (st : GameState) : GameState :=
  bp.foldl creditStep st

/-- Step 10 of settlement (src/server.js lines 725-743): INSERT ... ON CONFLICT
    (round_id) DO UPDATE. -/
def upsertRound (row : RoundRow) (rounds : List RoundRow) : List RoundRow :=
  if rounds.any (fun q => q.roundId == row.roundId) then
    rounds.map (fun q => if q.roundId == row.roundId then row else q)
  else rounds ++ [row]

/-- Steps 9 and 10 of settlement together: write the bank row and upsert the
    round row on the credited state. -/
def commitState (st : GameState) (bank' : Bank) (row : RoundRow) : GameState :=
  { st with bank := bank', rounds := upsertRound row st.rounds }

/-- Responses of POST /api/admin/settle. -/
inductive SettleResp where
  | badRequest
  | notEnded
  | alreadySettled
  | committed (adminTake carryOut totalBets carryIn potTotal : Int)
      (payouts : List Payout)
deriving DecidableEq

/-- True exactly on the `committed` response. -/
def SettleResp.isCommitted : SettleResp → Bool
  | .committed _ _ _ _ _ _ => true
  | _ => false

/-- Settlement transaction of POST /api/admin/settle
    (src/server.js lines 586-745): idempotence check, bank lock, draw
    (passed in as `draw` since it is a pure function of `SECRET_SEED` and the
    round id), lock of the round's unsettled bets, pot split 25/10/65, category
    bucketing, distribution, bet updates, per-player credits, bank update and
    rounds upsert. -/
def settleTx (r : Int) (draw : List Int × Int) (s : GameState) :
    SettleResp × GameState :=
  if s.rounds.any (fun row => row.roundId == r && row.settled) then
    (.alreadySettled, s)
  else
    let carryIn := s.bank.carry
    let adminBalanceBefore := s.bank.adminBalance
    let dn := draw.1
    let dc := draw.2
    let bets := s.bets.filter (fun b => b.roundId == r && !b.settled)
    let totalBets := (bets.map (fun b => b.amount)).sum
    let adminTake := Int.fdiv (totalBets * 25) 100
    let carryBaseOut := Int.fdiv (totalBets * 10) 100
    let potGains := Int.fdiv (totalBets * 65) 100
    let potTotal := potGains + carryIn
    let winners := fun cat =>
      bets.filter (fun b => categoryForBet b.nums b.chance dn dc == some cat)
    let dist := distribute carryBaseOut potTotal winners
    let payouts := dist.2
    let catAllocated := (CATS.map (fun c => Int.fdiv (potTotal * potShare c) 100)).sum
    let roundingLoss := potTotal - catAllocated
    let carryOut := if 0 < roundingLoss then dist.1 + roundingLoss else dist.1
    let s1 := { s with bets := markSettled r payouts s.bets }
    let s2 := applyCredits (byPlayer payouts) s1
    let row : RoundRow :=
      ⟨r, dn, dc, totalBets, potTotal, adminTake, carryIn, carryOut, true⟩
    (.committed adminTake carryOut totalBets carryIn potTotal payouts,
      commitState s2 ⟨carryOut, adminBalanceBefore + adminTake⟩ row)

/-- The full POST /api/admin/settle route (src/server.js lines 558-770) minus
    the admin-key and SECRET_SEED environment gates: choose the target round
    (the previous round when the body gives none), reject negative targets,
    reject rounds that have not ended, then run the transaction. -/
def settleHandler (cfg : TimingConfig) (nowMs : Int) (roundIdReq : Option Int)
    (draw : List Int × Int) (s : GameState) : SettleResp × GameState :=
  let current := getRoundInfo cfg nowMs
  let target := match roundIdReq with
    | some x => x
    | none => current.roundId - 1
  if target < 0 then (.badRequest, s)
  else if nowMs < (getRoundById cfg target nowMs).roundEndMs then (.notEnded, s)
  else settleTx target draw s

/-- Sum of the ledger amounts of one player (the right-hand side of invariant
    L1 of the spec). -/
def ledgerSum (l : List LedgerEntry) (pid : Nat) : Int :=
  ((l.filter (fun e => e.playerId == pid)).map (fun e => e.amount)).sum

/-- Invariant L1: every player's stored balance equals the sum of that
    player's ledger amounts. -/
def ledgerInvariant (s : GameState) : Prop :=
  ∀ pid : Nat, s.balances pid = ledgerSum s.ledger pid

/-- Sum of the WIN ledger amounts, the total credited by a settlement on a
    fresh state. -/
def winSum (l : List LedgerEntry) : Int :=
  ((l.filter (fun e => e.kind == "WIN")).map (fun e => e.amount)).sum

/-- Acceptance predicate written from the claim text (spec side, for
    comparison): nums accepted when the deduplicated list has length in
    4..8 and every element lies in 1..20. -/
def specNumsAccept (numsRaw : List Int) : Bool :=
  let unique := dedupFirst numsRaw
  (4 ≤ unique.length && unique.length ≤ 8) &&
    unique.all (fun n => decide (1 ≤ n) && decide (n ≤ 20))

/-- Gift-code format predicate written from the claim text (spec side, for
    comparison): 12 characters drawn from the restricted `ALPHABET`. -/
def specCodeAccept (code : String) : Bool :=
  code.length == 12 && code.data.all (fun c => decide (c ∈ ALPHABET.data))

/-- Classification table written from the amended claim text (spec side):
    first match of (matches, chanceBit) in the five-row table. -/
def specCategoryTable : List ((Nat × Nat) × String) :=
  [((4, 1), "4+1"), ((4, 0), "4+0"), ((3, 1), "3+1"), ((3, 0), "3+0"), ((1, 1), "1+1")]

/-- First-match lookup in `specCategoryTable` (spec side). -/
def specClassify (k c : Nat) : Option String :=
  (specCategoryTable.find? (fun e => e.1 == (k, c))).map (fun e => e.2)

/-- Number of bet numbers present in the draw (the `k` of `categoryForBet`). -/
def countMatches (a b : List Int) : Nat :=
  (a.filter (fun n => decide (n ∈ b))).length

/-- Pool allocated to one category: `Math.floor(potTotal * POT_SHARES[cat])`. -/
def catPoolOf (potTotal : Int) (cat : String) : Int :=
  Int.fdiv (potTotal * potShare cat) 100

/-- Payout rows one category produces in the distribution loop: every winner
    of the category receives `Math.floor(catPot / winners.length)`. -/
def catPayouts (potTotal : Int) (w : String → List Bet) (cat : String) :
    List Payout :=
  let per := Int.fdiv (catPoolOf potTotal cat) ((w cat).length : Int)
  (w cat).map (fun b => ⟨b.id, b.playerId, per, cat⟩)

/-- Carry contribution of one category in the distribution loop: the whole
    pool when the category has no winners, the flooring remainder otherwise. -/
def catCarryContrib (potTotal : Int) (w : String → List Bet) (cat : String) :
    Int :=
  if (w cat).length = 0 then catPoolOf potTotal cat
  else
    catPoolOf potTotal cat -
      Int.fdiv (catPoolOf potTotal cat) ((w cat).length : Int) * ((w cat).length : Int)

/-- Single mark of settlement step 7 applied to one bet row. -/
def markOne (b : Bet) (p : Payout) : Bet :=
  if b.id == p.betId then { b with payout := p.amount, category := some p.category }
  else b

/-- Single clear of settlement step 7 applied to one bet row. -/
def clearOne (r : Int) (b : Bet) : Bet :=
  if b.roundId == r && !b.settled then
    { b with settled := true, payout := 0, category := none }
  else b

/-- Empty database: no players, no rows, zeroed bank. -/
def emptyState : GameState :=
  { hasPlayer := fun _ => false
    active := fun _ => false
    balances := fun _ => 0
    ledger := []
    bets := []
    giftCodes := []
    bank := ⟨0, 0⟩
    rounds := [] }

/-- Concrete state for the conservation check: one active player, one
    unsettled losing bet of 10 DOS on round 0, bank zeroed. -/
def c1State : GameState :=
  { emptyState with
    hasPlayer := fun q => q = 1
    active := fun q => q = 1
    bets := [⟨1, 1, 0, some [5, 6, 7, 8], some 2, 10, false, 0, none⟩] }

/-- Concrete state for the proration check: two active players holding
    "4+1"-winning bets of different stakes (10 and 30) on round 0. -/
def c3State : GameState :=
  { emptyState with
    hasPlayer := fun q => q = 1 ∨ q = 2
    active := fun q => q = 1 ∨ q = 2
    bets := [⟨1, 1, 0, some [1, 2, 3, 4], some 1, 10, false, 0, none⟩,
             ⟨2, 2, 0, some [1, 2, 3, 4], some 1, 30, false, 0, none⟩] }

/-- Default timing configuration (ROUND_SECONDS=300, CLOSE_BETS_AT=30) with
    anchor 0. -/
def cfg300 : TimingConfig := ⟨300, 30, 0⟩

/-- Winner buckets with two one-DOS "4+1" winners, used to exercise the
    zero-payout edge case. -/
def w9 : String → List Bet := fun cat =>
  if cat = "4+1" then
    [⟨1, 1, 0, some [1, 2, 3, 4], some 1, 1, false, 0, none⟩,
     ⟨2, 2, 0, some [1, 2, 3, 4], some 1, 1, false, 0, none⟩]
  else []

/-- The bets a settlement of round `r` loads: unsettled bets of the round
    (src/server.js lines 609-615). -/
def roundBets (r : Int) (s : GameState) : List Bet :=
  s.bets.filter (fun b => b.roundId == r && !b.settled)

/-- The winner bucket of one category as settlement computes it
    (src/server.js lines 635-640). -/
def settleWinners (r : Int) (draw : List Int × Int) (s : GameState) :
    String → List Bet :=
  fun cat => (roundBets r s).filter
    (fun b => categoryForBet b.nums b.chance draw.1 draw.2 == some cat)

/-- The allocation base `potTotal = floor(pot·0.65) + carryIn` of a
    settlement (src/server.js lines 630-632). -/
def settlePotTotal (r : Int) (s : GameState) : Int :=
  Int.fdiv (((roundBets r s).map (fun b => b.amount)).sum * 65) 100 +
    s.bank.carry

/-- The payout list a settlement of round `r` produces
    (src/server.js lines 643-663). -/
def settlePayouts (r : Int) (draw : List Int × Int) (s : GameState) :
    List Payout :=
  (distribute
    (Int.fdiv (((roundBets r s).map (fun b => b.amount)).sum * 10) 100)
    (settlePotTotal r s) (settleWinners r draw s)).2

/-- Concrete state for the zero-payout edge case inside a full settlement:
    two active players with "4+1"-winning bets of stakes 3 and 4 on round 0,
    so `potTotal = 4`, `catPool("4+1") = 1` and the per-bet payout floors
    to 0. -/
def c9State : GameState :=
  { emptyState with
    hasPlayer := fun q => q = 1 ∨ q = 2
    active := fun q => q = 1 ∨ q = 2
    bets := [⟨1, 1, 0, some [1, 2, 3, 4], some 1, 3, false, 0, none⟩,
             ⟨2, 2, 0, some [1, 2, 3, 4], some 1, 4, false, 0, none⟩] }

/-- Claim C1: settlement of a round with pot 10 and carry-in 0 commits with
    `adminTake = 2`, `carryOut = 7` and no payout at all, so
    `adminTake + carryOut + Σ payouts = 9` while `pot + carryIn = 10`: the
    1 DOS lost by `floor(10·0.25) + floor(10·0.10) + floor(10·0.65) = 9` is
    credited nowhere, violating the exact conservation identity. -/
theorem c1_conservation_fails_at_pot10 :
    (settleTx 0 ([1, 2, 3, 4], 1) c1State).1 =
      SettleResp.committed 2 7 10 0 6 [] ∧
    winSum (settleTx 0 ([1, 2, 3, 4], 1) c1State).2.ledger = 0 ∧
    ¬ ((2 : Int) + 7 + 0 = 10 + 0) := by
  refine ⟨by decide, by decide, by decide⟩

/-- Claim C3, counterexample: with two "4+1" winners of stakes 10 and 30 and
    `catPool = 11`, the code pays each bet `floor(11 / 2) = 5`, while the
    claimed stake proration would pay the 10-DOS bet
    `floor(11 · 10 / 40) = 2`. -/
theorem c3_counterexample_equal_split :
    (settleTx 0 ([1, 2, 3, 4], 1) c3State).1 =
      SettleResp.committed 10 20 40 0 26
        [⟨1, 1, 5, "4+1"⟩, ⟨2, 2, 5, "4+1"⟩] ∧
    Int.fdiv (catPoolOf 26 "4+1" * 10) 40 = 2 ∧ ¬ ((2 : Int) = 5) := by
  refine ⟨by decide, by decide, by decide⟩

/-- Claim C4, counterexample: a bet matching exactly 2 draw numbers plus the
    chance is classified as a loser (`null`), not as a "2+1" winner, and the
    "4+1" weight is 0.45, not the claimed 0.35. -/
theorem c4_counterexample_five_categories :
    categoryForBet (some [1, 2, 9, 10]) (some 1) [1, 2, 3, 4] 1 = none ∧
    POT_SHARES.lookup "4+1" = some 45 ∧ ¬ ((45 : Int) = 35) := by
  refine ⟨by decide, by decide, by decide⟩

/-- Claim C6, counterexample: the request nums [1..8] deduplicates to size 8
    with every element in 1..20, so the claim accepts it, but the code rejects
    every deduplicated size other than exactly 4. -/
theorem c6_counterexample_size8_rejected :
    specNumsAccept [1, 2, 3, 4, 5, 6, 7, 8] = true ∧
    betNumsCheck [1, 2, 3, 4, 5, 6, 7, 8] = none := by
  refine ⟨by decide, by decide⟩

/-- Claim C7, counterexample: the 12-character uppercase alphanumeric code
    "OOOOOOOOOOOO" contains the excluded glyph O, so the claim rejects it, but
    the code's format regex `[A-Z0-9]{12}` accepts it. -/
theorem c7_counterexample_ambiguous_glyphs_pass :
    redeemFormatOk "OOOOOOOOOOOO" = true ∧
    specCodeAccept "OOOOOOOOOOOO" = false := by
  refine ⟨by decide, by decide⟩

/-- Claim C8, counterexample: with the default parameters the round id is the
    same at times 0 and 1000, so `roundId` is not strictly monotonic in
    wall-clock time. -/
theorem c8_counterexample_not_strictly_monotonic :
    (0 : Int) < 1000 ∧
    ¬ ((getRoundInfo cfg300 0).roundId < (getRoundInfo cfg300 1000).roundId) := by
  refine ⟨by decide, by decide⟩

/-- Claim C8, amended: with constant timing parameters and positive
    `roundSeconds`, `roundId` is nondecreasing in wall-clock time (constant
    within a round, so not strictly monotonic), advances by exactly one after
    one round duration, `betsOpen` is true iff `now < closeAt`, and at
    `now == closeAt` it is false. -/
theorem c8_round_engine_contract (cfg : TimingConfig)
    (h : 0 < cfg.roundSeconds) :
    (∀ t1 t2 : Int, t1 ≤ t2 →
      (getRoundInfo cfg t1).roundId ≤ (getRoundInfo cfg t2).roundId) ∧
    (∀ t : Int, (getRoundInfo cfg (t + cfg.roundSeconds * 1000)).roundId =
      (getRoundInfo cfg t).roundId + 1) ∧
    (∀ t : Int, (getRoundInfo cfg t).betsOpen = true ↔
      t < (getRoundInfo cfg t).closeAtMs) ∧
    (∀ t : Int, t = (getRoundInfo cfg t).closeAtMs →
      (getRoundInfo cfg t).betsOpen = false) := by
  have hpos : (0 : Int) < cfg.roundSeconds * 1000 := by
    have : (0 : Int) < 1000 := by norm_num
    exact mul_pos h this
  have hne : cfg.roundSeconds * 1000 ≠ 0 := ne_of_gt hpos
  refine ⟨?_, ?_, ?_, ?_⟩
  · intro t1 t2 h12
    show Int.fdiv (t1 - cfg.anchorMs) (cfg.roundSeconds * 1000) ≤
      Int.fdiv (t2 - cfg.anchorMs) (cfg.roundSeconds * 1000)
    rw [Int.fdiv_eq_ediv _ hpos.le, Int.fdiv_eq_ediv _ hpos.le]
    exact Int.ediv_le_ediv hpos (sub_le_sub_right h12 _)
  · intro t
    show Int.fdiv (t + cfg.roundSeconds * 1000 - cfg.anchorMs) (cfg.roundSeconds * 1000) =
      Int.fdiv (t - cfg.anchorMs) (cfg.roundSeconds * 1000) + 1
    rw [Int.fdiv_eq_ediv _ hpos.le, Int.fdiv_eq_ediv _ hpos.le]
    have harr : t + cfg.roundSeconds * 1000 - cfg.anchorMs =
        (t - cfg.anchorMs) + 1 * (cfg.roundSeconds * 1000) := by ring
    rw [harr, Int.add_mul_ediv_right _ _ hne]
  · intro t
    show decide (t < (getRoundInfo cfg t).closeAtMs) = true ↔
      t < (getRoundInfo cfg t).closeAtMs
    exact decide_eq_true_iff
  · intro t ht
    have hnot : ¬ t < (getRoundInfo cfg t).closeAtMs := by
      rw [← ht]; exact lt_irrefl t
    show decide (t < (getRoundInfo cfg t).closeAtMs) = false
    exact decide_eq_false hnot

/-- Witness for the amended C8 theorem at the default configuration. -/
theorem c8_round_engine_contract_witness :
    (0 : Int) < cfg300.roundSeconds ∧
    (getRoundInfo cfg300 0).roundId ≤ (getRoundInfo cfg300 5).roundId :=
  ⟨by decide,
    (c8_round_engine_contract cfg300 (by decide)).1 0 5 (by decide)⟩

/-- Membership in the dedup fold, generalized over the accumulator. -/
theorem mem_dedup_foldl (l : List Int) :
    ∀ (acc : List Int) (x : Int),
      (x ∈ l.foldl (fun a v => if v ∈ a then a else a ++ [v]) acc) ↔
        x ∈ acc ∨ x ∈ l := by
  induction l with
  | nil => intro acc x; simp
  | cons v t ih =>
    intro acc x
    simp only [List.foldl_cons]
    by_cases hv : v ∈ acc
    · rw [if_pos hv, ih]
      constructor
      · rintro (h | h)
        · exact Or.inl h
        · exact Or.inr (List.mem_cons_of_mem _ h)
      · rintro (h | h)
        · exact Or.inl h
        · rcases List.mem_cons.mp h with rfl | h
          · exact Or.inl hv
          · exact Or.inr h
    · rw [if_neg hv, ih]
      simp only [List.mem_append, List.mem_singleton, List.mem_cons]
      tauto

/-- A value is in `dedupFirst l` exactly when it is in `l`. -/
theorem mem_dedupFirst {x : Int} {l : List Int} : x ∈ dedupFirst l ↔ x ∈ l := by
  unfold dedupFirst
  rw [mem_dedup_foldl]
  simp

/-- Claim C6, amended: the nums validation accepts a request exactly when the
    deduplicated nums list has length exactly 4 (not 4..8) with every element
    an integer in 1..20, and a rejected bet request leaves the state
    unchanged. -/
theorem c6_nums_validation_characterization :
    (∀ ns : List Int, (betNumsCheck ns).isSome = true ↔
      ((dedupFirst ns).length = 4 ∧ ∀ n ∈ ns, 1 ≤ n ∧ n ≤ 20)) ∧
    (∀ cfg nowMs pid amt ns ch cr nb s, betNumsCheck ns = none →
      (placeBetHandler cfg nowMs pid amt (some ns) ch cr nb s).2 = s) := by
  constructor
  · intro ns
    unfold betNumsCheck
    constructor
    · intro h
      by_cases h4 : (dedupFirst ns).length = 4
      · refine ⟨h4, ?_⟩
        by_cases hall : (dedupFirst ns).all
            (fun n => decide (1 ≤ n) && decide (n ≤ 20)) = true
        · intro n hn
          have := List.all_eq_true.mp hall n (mem_dedupFirst.mpr hn)
          simpa using this
        · exfalso
          simp [h4, hall] at h
      · exfalso
        simp [h4] at h
    · rintro ⟨h4, hall⟩
      have hAll : (dedupFirst ns).all
          (fun n => decide (1 ≤ n) && decide (n ≤ 20)) = true := by
        rw [List.all_eq_true]
        intro n hn
        have := hall n (mem_dedupFirst.mp hn)
        simp [this.1, this.2]
      simp [h4, hAll]
  · intro cfg nowMs pid amt ns ch cr nb s hbad
    unfold placeBetHandler
    have hparse : parseBetRequest (some ns) ch cr = none := by
      simp only [parseBetRequest]
      rw [hbad]
    by_cases h1 : (getRoundInfo cfg nowMs).betsOpen = false
    · simp [h1]
    · by_cases h2 : ¬ 0 < pid
      · simp [h1, h2]
      · by_cases h3 : ¬ 0 < amt
        · simp [h1, h2, h3]
        · simp [h1, h2, h3, hparse]

/-- Witness for the amended C6 theorem: the list [2,1,20,3] is accepted, and
    a rejected nums list leaves a state unchanged. -/
theorem c6_nums_validation_witness :
    (betNumsCheck [2, 1, 20, 3]).isSome = true ∧
    betNumsCheck [1, 2, 3] = none ∧
    (placeBetHandler cfg300 0 1 5 (some [1, 2, 3]) (some 1) "" 1 emptyState).2 =
      emptyState :=
  ⟨(c6_nums_validation_characterization.1 [2, 1, 20, 3]).mpr
      ⟨by decide, by decide⟩,
    by decide,
    c6_nums_validation_characterization.2 cfg300 0 1 5 [1, 2, 3] (some 1) "" 1
      emptyState (by decide)⟩

/-- Claim C7, amended: the redeem format check accepts exactly the
    12-character uppercase alphanumeric codes (the restricted alphabet without
    O, 0, I, 1 governs code generation, not redeem validation): and indeed
    every generated 12-byte ticket code is 12 characters over the restricted
    alphabet and passes the redeem format check. -/
theorem c7_redeem_format_characterization :
    (∀ code : String, redeemFormatOk code = true ↔
      (code.length = 12 ∧ ∀ c ∈ code.data,
        ('A' ≤ c ∧ c ≤ 'Z') ∨ ('0' ≤ c ∧ c ≤ '9'))) ∧
    (∀ bytes : List Nat, bytes.length = 12 →
      specCodeAccept (generateTicketCode bytes) = true ∧
      redeemFormatOk (generateTicketCode bytes) = true) := by
  constructor
  · intro code
    unfold redeemFormatOk
    rw [Bool.and_eq_true, List.all_eq_true]
    constructor
    · rintro ⟨h1, h2⟩
      refine ⟨by simpa using h1, ?_⟩
      intro c hc
      have := h2 c hc
      simpa using this
    · rintro ⟨h1, h2⟩
      refine ⟨by simpa using h1, ?_⟩
      intro c hc
      have := h2 c hc
      simpa using this
  · intro bytes hlen
    have hmem : ∀ c ∈ (generateTicketCode bytes).data, c ∈ ALPHABET.data := by
      intro c hc
      unfold generateTicketCode at hc
      simp only [String.mk] at hc
      rcases List.mem_map.mp hc with ⟨b, _, rfl⟩
      have hlt : b % ALPHABET.data.length < ALPHABET.data.length :=
        Nat.mod_lt _ (by decide)
      have hget : ALPHABET.data.getD (b % ALPHABET.data.length) 'A' =
          ALPHABET.data[b % ALPHABET.data.length] := by
        rw [List.getD_eq_getElem?_getD, List.getElem?_eq_getElem hlt]
        rfl
      rw [hget]
      exact List.getElem_mem hlt
    have hlen12 : (generateTicketCode bytes).length = 12 := by
      unfold generateTicketCode
      simpa using hlen
    constructor
    · unfold specCodeAccept
      rw [Bool.and_eq_true]
      constructor
      · simpa using hlen12
      · rw [List.all_eq_true]
        intro c hc
        simpa using hmem c hc
    · unfold redeemFormatOk
      rw [Bool.and_eq_true]
      constructor
      · simpa using hlen12
      · rw [List.all_eq_true]
        intro c hc
        have halpha : ∀ c ∈ ALPHABET.data,
            (('A' ≤ c && c ≤ 'Z') || ('0' ≤ c && c ≤ '9')) = true := by decide
        exact halpha c (hmem c hc)

/-- Witness for the amended C7 theorem: twelve zero bytes generate the code
    "AAAAAAAAAAAA", which is accepted. -/
theorem c7_redeem_format_witness :
    (List.replicate 12 0).length = 12 ∧
    specCodeAccept (generateTicketCode (List.replicate 12 0)) = true :=
  ⟨by decide,
    (c7_redeem_format_characterization.2 (List.replicate 12 0) (by decide)).1⟩

/-- Claim C10: a bet request without `nums` is accepted exactly when the
    trimmed, uppercased `choice` is "A" or "B"; such a bet stores `nums` and
    `chance` as `null`; and classification returns `null` for a null `nums`
    and for any `nums` whose length is not 4, so legacy bets always lose at
    settlement. -/
theorem c10_legacy_choice_format :
    (∀ ch cr, (parseBetRequest none ch cr).isSome = true ↔
      (jsNormalize cr = "A" ∨ jsNormalize cr = "B")) ∧
    (∀ ch cr p, parseBetRequest none ch cr = some p →
      p.nums = none ∧ p.chance = none) ∧
    (∀ bc dn dc, categoryForBet none bc dn dc = none) ∧
    (∀ ns bc dn dc, ns.length ≠ 4 →
      categoryForBet (some ns) bc dn dc = none) := by
  refine ⟨?_, ?_, ?_, ?_⟩
  · intro ch cr
    simp only [parseBetRequest]
    by_cases h0 : jsNormalize cr = ""
    · have hA : ¬ (jsNormalize cr = "A" ∨ jsNormalize cr = "B") := by
        rw [h0]; decide
      simp [h0, hA]
    · by_cases hAB : jsNormalize cr = "A" ∨ jsNormalize cr = "B"
      · simp [h0, hAB]
      · simp [h0, hAB]
  · intro ch cr p hp
    simp only [parseBetRequest] at hp
    by_cases h0 : jsNormalize cr = ""
    · rw [if_pos h0] at hp
      exact absurd hp (by simp)
    · rw [if_neg h0] at hp
      by_cases hAB : jsNormalize cr = "A" ∨ jsNormalize cr = "B"
      · rw [if_pos hAB] at hp
        have hcast : (⟨none, none, jsNormalize cr⟩ : BetRequestParse) = p :=
          Option.some.inj hp
        rw [← hcast]
        exact ⟨rfl, rfl⟩
      · rw [if_neg hAB] at hp
        exact absurd hp (by simp)
  · intro bc dn dc
    rfl
  · intro ns bc dn dc h
    unfold categoryForBet
    simp [h]

/-- Witness for the C10 theorem: the choice " b " normalizes to "B" and is
    accepted, and a legacy bet with null nums is classified as a loser. -/
theorem c10_legacy_choice_witness :
    (parseBetRequest none none "  b ").isSome = true ∧
    categoryForBet none (some 3) [1, 2, 3, 4] 3 = none ∧
    ([1, 2] : List Int).length ≠ 4 ∧
    categoryForBet (some [1, 2]) (some 3) [1, 2, 3, 4] 3 = none :=
  ⟨(c10_legacy_choice_format.1 none "  b ").mpr (by decide),
    c10_legacy_choice_format.2.2.1 (some 3) [1, 2, 3, 4] 3,
    by decide,
    c10_legacy_choice_format.2.2.2 [1, 2] (some 3) [1, 2, 3, 4] 3 (by decide)⟩

/-- Closed form of the settlement distribution fold, over any category list. -/
theorem foldl_distStep_closed (pt : Int) (w : String → List Bet) :
    ∀ (l : List String) (c0 : Int) (ps : List Payout),
      l.foldl (distStep pt w) (c0, ps) =
        (c0 + ((l.map (catCarryContrib pt w)).sum),
         ps ++ (l.map (catPayouts pt w)).flatten) := by
  intro l
  induction l with
  | nil => intro c0 ps; simp
  | cons cat t ih =>
    intro c0 ps
    simp only [List.foldl_cons, List.map_cons, List.sum_cons, List.flatten_cons]
    rw [ih]
    by_cases h : (w cat).length = 0
    · have hnil : w cat = [] := List.length_eq_zero.mp h
      simp [distStep, catCarryContrib, catPayouts, catPoolOf, h, hnil, add_assoc]
    · simp only [distStep, catCarryContrib, catPayouts, catPoolOf, if_neg h]
      rw [Prod.mk.injEq]
      constructor
      · ring
      · rw [List.append_assoc]

/-- Claim C3, amended: within a category the code splits the category pool
    equally per winning bet, `floor(catPool / |W|)` each, independent of
    stake, and adds the remainder `catPool − |W|·floor(catPool / |W|)` to
    carry (no proration by stake). -/
theorem c3_amended_equal_split :
    (∀ c0 pt w, distribute c0 pt w =
      (c0 + ((CATS.map (catCarryContrib pt w)).sum),
       (CATS.map (catPayouts pt w)).flatten)) ∧
    (∀ c0 pt w p, p ∈ (distribute c0 pt w).2 →
      p.amount = Int.fdiv (catPoolOf pt p.category) ((w p.category).length : Int)) := by
  have hclosed : ∀ c0 pt w, distribute c0 pt w =
      (c0 + ((CATS.map (catCarryContrib pt w)).sum),
       (CATS.map (catPayouts pt w)).flatten) := by
    intro c0 pt w
    have := foldl_distStep_closed pt w CATS c0 []
    simpa [distribute] using this
  refine ⟨hclosed, ?_⟩
  intro c0 pt w p hp
  rw [hclosed] at hp
  simp only at hp
  rcases List.mem_flatten.mp hp with ⟨lp, hlp, hplp⟩
  rcases List.mem_map.mp hlp with ⟨cat, _, rfl⟩
  unfold catPayouts at hplp
  rcases List.mem_map.mp hplp with ⟨b, _, rfl⟩
  rfl

/-- Witness for the amended C3 theorem: with pot total 40 the "4+1" pool is
    18 and each of the two winners receives `floor(18 / 2) = 9`. -/
theorem c3_amended_equal_split_witness :
    (⟨1, 1, 9, "4+1"⟩ : Payout) ∈ (distribute 0 40 w9).2 ∧
    (9 : Int) = Int.fdiv (catPoolOf 40 "4+1") ((w9 "4+1").length : Int) :=
  ⟨by decide,
    c3_amended_equal_split.2 0 40 w9 ⟨1, 1, 9, "4+1"⟩ (by decide)⟩

/-- Claim C4, amended: settlement classifies every bet by matches and chance
    into the first matching of the FIVE categories 4+1, 4+0, 3+1, 3+0, 1+1
    (with exact match counts; 2+1 and 2+0 do not exist and lose), allocates
    over `potTotal = floor(pot·0.65) + carryIn` (not over the win pool alone)
    with the weights 0.45, 0.25, 0.15, 0.10, 0.05 via
    `catPool = floor(potTotal × weight)`, and a category with zero winners
    contributes its whole `catPool` to carry. -/
theorem c4_amended_categories :
    (∀ ns bc dn dc, categoryForBet (some ns) bc dn dc =
      if ns.length = 4 then
        specClassify (countMatches ns dn) (if bc = some dc then 1 else 0)
      else none) ∧
    (∀ bc dn dc, categoryForBet none bc dn dc = none) ∧
    (∀ pt w acc cat, w cat = [] →
      distStep pt w acc cat = (acc.1 + Int.fdiv (pt * potShare cat) 100, acc.2)) ∧
    (∀ r draw s a c t ci pt ps,
      (settleTx r draw s).1 = SettleResp.committed a c t ci pt ps →
      pt = Int.fdiv (t * 65) 100 + ci ∧ a = Int.fdiv (t * 25) 100) := by
  refine ⟨?_, ?_, ?_, ?_⟩
  · intro ns bc dn dc
    unfold categoryForBet countMatches
    by_cases h4 : ns.length = 4
    · simp only [h4, ite_true, ne_eq, not_true_eq_false, if_false]
      have hk4 : (ns.filter (fun n => decide (n ∈ dn))).length ≤ 4 := by
        have h := List.length_filter_le (fun n => decide (n ∈ dn)) ns
        omega
      generalize hg : (ns.filter (fun n => decide (n ∈ dn))).length = k at hk4 ⊢
      by_cases hbc : bc = some dc
      · simp only [hbc, ite_true]
        interval_cases k <;> rfl
      · simp only [hbc, ite_false]
        interval_cases k <;> rfl
    · simp [h4]
  · intro bc dn dc
    rfl
  · intro pt w acc cat hcat
    unfold distStep
    simp [hcat]
  · intro r draw s a c t ci pt ps h
    unfold settleTx at h
    by_cases hx : s.rounds.any (fun row => row.roundId == r && row.settled) = true
    · rw [if_pos hx] at h
      exact absurd h (by simp)
    · rw [if_neg hx] at h
      simp only [SettleResp.committed.injEq] at h
      obtain ⟨ha, hc, ht, hci, hpt, hps⟩ := h
      constructor
      · rw [← hpt, ← ht, ← hci]
      · rw [← ha, ← ht]

/-- Witness for the amended C4 theorem: a zero-winner category reports its
    whole pool to carry. -/
theorem c4_amended_categories_witness :
    ((fun _ => ([] : List Bet)) "4+1" = []) ∧
    distStep 10 (fun _ => []) (0, []) "4+1" =
      (0 + Int.fdiv (10 * potShare "4+1") 100, []) :=
  ⟨rfl, c4_amended_categories.2.2.1 10 (fun _ => []) (0, []) "4+1" rfl⟩

/-- The payout-mark fold distributes pointwise over the bet rows. -/
theorem foldl_applyPayoutMark_map :
    ∀ (ps : List Payout) (l : List Bet),
      ps.foldl applyPayoutMark l = l.map (fun b => ps.foldl markOne b) := by
  intro ps
  induction ps with
  | nil => intro l; simp
  | cons p t ih =>
    intro l
    simp only [List.foldl_cons]
    rw [show applyPayoutMark l p = l.map (fun b => markOne b p) from rfl, ih,
      List.map_map]
    rfl

/-- Marking a bet whose targeting payouts all carry amount 0 and one fixed
    category keeps id and settled flag, keeps payout at zero, records that
    category as soon as some payout targets the bet, and leaves the category
    untouched when none does. -/
theorem foldl_markOne_target :
    ∀ (ps : List Payout) (b : Bet) (cat : String),
      (∀ p ∈ ps, p.betId = b.id → p.amount = 0 ∧ p.category = cat) →
      b.payout = 0 →
      (ps.foldl markOne b).id = b.id ∧
      (ps.foldl markOne b).settled = b.settled ∧
      (ps.foldl markOne b).payout = 0 ∧
      ((∃ p ∈ ps, p.betId = b.id) →
        (ps.foldl markOne b).category = some cat) ∧
      ((∀ p ∈ ps, p.betId ≠ b.id) →
        (ps.foldl markOne b).category = b.category) := by
  intro ps
  induction ps with
  | nil =>
    intro b cat _ hb0
    exact ⟨rfl, rfl, hb0, fun h => absurd h (by simp), fun _ => rfl⟩
  | cons p t ih =>
    intro b cat hz hb0
    simp only [List.foldl_cons]
    by_cases hid : (b.id == p.betId) = true
    · have hid2 : p.betId = b.id := (by simpa using hid : b.id = p.betId).symm
      obtain ⟨hamt, hcat⟩ := hz p (List.mem_cons_self p t) hid2
      have hm : markOne b p =
          { b with payout := p.amount, category := some p.category } := by
        unfold markOne
        rw [if_pos hid]
      have hidm : (markOne b p).id = b.id := by rw [hm]
      have hz' : ∀ q ∈ t, q.betId = (markOne b p).id →
          q.amount = 0 ∧ q.category = cat := by
        intro q hq hqid
        exact hz q (List.mem_cons_of_mem _ hq) (hqid.trans hidm)
      obtain ⟨h1, h2, h3, h4, h5⟩ := ih (markOne b p) cat hz'
        (by rw [hm, hamt])
      have hcatm : (markOne b p).category = some cat := by rw [hm, hcat]
      refine ⟨by rw [h1, hidm], by rw [h2, hm], h3, ?_, ?_⟩
      · intro _
        by_cases hex : ∃ q ∈ t, q.betId = (markOne b p).id
        · exact h4 hex
        · rw [h5 (fun q hq hqid => hex ⟨q, hq, hqid⟩), hcatm]
      · intro hall
        exact absurd hid2 (hall p (List.mem_cons_self p t))
    · have hm : markOne b p = b := by
        unfold markOne
        rw [if_neg hid]
      rw [hm]
      obtain ⟨h1, h2, h3, h4, h5⟩ := ih b cat
        (fun q hq => hz q (List.mem_cons_of_mem _ hq)) hb0
      refine ⟨h1, h2, h3, ?_, ?_⟩
      · rintro ⟨q, hq, hqid⟩
        rcases List.mem_cons.mp hq with rfl | hq
        · exact absurd (by simp [hqid]) hid
        · exact h4 ⟨q, hq, hqid⟩
      · intro hall
        exact h5 (fun q hq => hall q (List.mem_cons_of_mem _ hq))

/-- A bet of the round that some all-zero, single-category payout batch
    targets is marked settled with payout 0 and that category recorded. -/
theorem markSettled_records_zero (r : Int) (ps : List Payout)
    (bets : List Bet) (b : Bet) (cat : String) (hb : b ∈ bets)
    (hbr : b.roundId = r) (hbs : b.settled = false)
    (htarget : ∃ p ∈ ps, p.betId = b.id)
    (hzero : ∀ p ∈ ps, p.betId = b.id → p.amount = 0 ∧ p.category = cat) :
    ∃ b' ∈ markSettled r ps bets, b'.id = b.id ∧ b'.settled = true ∧
      b'.payout = 0 ∧ b'.category = some cat := by
  have hclear : clearOne r b =
      { b with settled := true, payout := 0, category := none } := by
    unfold clearOne
    rw [if_pos (by simp [hbr, hbs])]
  have hid : (clearOne r b).id = b.id := by rw [hclear]
  refine ⟨ps.foldl markOne (clearOne r b), ?_, ?_⟩
  · unfold markSettled
    rw [foldl_applyPayoutMark_map]
    have hcr : clearRound r bets = bets.map (clearOne r) := rfl
    rw [hcr, List.map_map]
    exact List.mem_map_of_mem _ hb
  · have hz' : ∀ p ∈ ps, p.betId = (clearOne r b).id →
        p.amount = 0 ∧ p.category = cat := by
      intro p hp hpid
      exact hzero p hp (hpid.trans hid)
    obtain ⟨h1, h2, h3, h4, _⟩ := foldl_markOne_target ps (clearOne r b) cat
      hz' (by rw [hclear])
    have hex : ∃ p ∈ ps, p.betId = (clearOne r b).id := by
      obtain ⟨p, hp, hpid⟩ := htarget
      exact ⟨p, hp, by rw [hid, hpid]⟩
    exact ⟨by rw [h1, hid], by rw [h2, hclear], h3, h4 hex⟩

/-- The credit loop never touches the bets table. -/
theorem applyCredits_bets :
    ∀ (bp : List (Nat × Int)) (st : GameState),
      (applyCredits bp st).bets = st.bets := by
  intro bp
  induction bp with
  | nil => intro st; rfl
  | cons x t ih =>
    intro st
    have hstep : applyCredits (x :: t) st = applyCredits t (creditStep st x) := rfl
    rw [hstep, ih]
    unfold creditStep
    by_cases hx : x.2 ≤ 0
    · rw [if_pos hx]
    · rw [if_neg hx]

/-- `categoryForBet` only ever returns one of the five category keys. -/
theorem categoryForBet_mem_CATS (bn : Option (List Int)) (bc : Option Int)
    (dn : List Int) (dc : Int) (cat : String)
    (h : categoryForBet bn bc dn dc = some cat) : cat ∈ CATS := by
  cases bn with
  | none => exact absurd h (by simp [categoryForBet])
  | some ns =>
    rw [show categoryForBet (some ns) bc dn dc =
        (if ns.length ≠ 4 then none
         else
           let k := (ns.filter (fun n => decide (n ∈ dn))).length
           let c : Nat := if bc = some dc then 1 else 0
           if k = 4 ∧ c = 1 then some "4+1"
           else if k = 4 ∧ c = 0 then some "4+0"
           else if k = 3 ∧ c = 1 then some "3+1"
           else if k = 3 ∧ c = 0 then some "3+0"
           else if k = 1 ∧ c = 1 then some "1+1"
           else none) from rfl] at h
    by_cases h4 : ns.length ≠ 4
    · rw [if_pos h4] at h
      exact absurd h (by simp)
    · rw [if_neg h4] at h
      dsimp only at h
      split_ifs at h
      all_goals obtain rfl := Option.some.inj h
      all_goals decide

/-- Membership in a settlement winner bucket unpacked. -/
theorem settleWinners_mem (r : Int) (draw : List Int × Int) (s : GameState)
    (cat : String) (b : Bet) (hb : b ∈ settleWinners r draw s cat) :
    b ∈ s.bets ∧ b.roundId = r ∧ b.settled = false ∧
      categoryForBet b.nums b.chance draw.1 draw.2 = some cat := by
  unfold settleWinners at hb
  rw [List.mem_filter] at hb
  obtain ⟨hb1, hb2⟩ := hb
  unfold roundBets at hb1
  rw [List.mem_filter] at hb1
  obtain ⟨hb0, hbf⟩ := hb1
  simp only [Bool.and_eq_true, beq_iff_eq, Bool.not_eq_true'] at hbf
  exact ⟨hb0, hbf.1, hbf.2, by simpa using hb2⟩

/-- Every payout row of a settlement is the equal-split row of some winner of
    some category. -/
theorem settlePayouts_mem_char (r : Int) (draw : List Int × Int)
    (s : GameState) (p : Payout) (hp : p ∈ settlePayouts r draw s) :
    ∃ cat ∈ CATS, ∃ b2 ∈ settleWinners r draw s cat,
      p = ⟨b2.id, b2.playerId,
        Int.fdiv (catPoolOf (settlePotTotal r s) cat)
          ((settleWinners r draw s cat).length : Int), cat⟩ := by
  unfold settlePayouts distribute at hp
  rw [foldl_distStep_closed] at hp
  simp only [List.nil_append] at hp
  rcases List.mem_flatten.mp hp with ⟨lp, hlp, hplp⟩
  rcases List.mem_map.mp hlp with ⟨cat, hcatmem, rfl⟩
  unfold catPayouts at hplp
  rcases List.mem_map.mp hplp with ⟨b2, hb2, rfl⟩
  exact ⟨cat, hcatmem, b2, hb2, rfl⟩

/-- Every winner of a category receives its equal-split payout row in the
    settlement's payout list. -/
theorem settlePayouts_winner_mem (r : Int) (draw : List Int × Int)
    (s : GameState) (cat : String) (b : Bet) (hcat : cat ∈ CATS)
    (hb : b ∈ settleWinners r draw s cat) :
    (⟨b.id, b.playerId,
      Int.fdiv (catPoolOf (settlePotTotal r s) cat)
        ((settleWinners r draw s cat).length : Int), cat⟩ : Payout) ∈
      settlePayouts r draw s := by
  unfold settlePayouts distribute
  rw [foldl_distStep_closed]
  simp only [List.nil_append]
  apply List.mem_flatten.mpr
  refine ⟨catPayouts (settlePotTotal r s) (settleWinners r draw s) cat,
    List.mem_map_of_mem _ hcat, ?_⟩
  unfold catPayouts
  exact List.mem_map_of_mem _ hb

/-- The bets table of a committed settlement is the marked bets table. -/
theorem settleTx_bets (r : Int) (d : List Int × Int) (s : GameState)
    (hx : s.rounds.any (fun row => row.roundId == r && row.settled) = false) :
    (settleTx r d s).2.bets = markSettled r (settlePayouts r d s) s.bets := by
  unfold settleTx
  rw [if_neg (by rw [hx]; exact Bool.false_ne_true)]
  simp only [commitState, applyCredits_bets]
  rfl

/-- Inserting a gain keeps all entries of one player nonpositive when the
    existing entries are nonpositive and the inserted amount is nonpositive
    for that player. -/
theorem insertGain_nonpos (pid : Nat) :
    ∀ (m : List (Nat × Int)) (q : Nat) (a : Int),
      (∀ x ∈ m, x.1 = pid → x.2 ≤ 0) → (q = pid → a ≤ 0) →
      ∀ x ∈ insertGain m q a, x.1 = pid → x.2 ≤ 0 := by
  intro m
  induction m with
  | nil =>
    intro q a _ hqa x hx hxp
    unfold insertGain at hx
    rcases List.mem_singleton.mp hx with rfl
    exact hqa hxp
  | cons y rest ih =>
    intro q a hm hqa x hx hxp
    unfold insertGain at hx
    by_cases hy : y.1 = q
    · rw [if_pos hy] at hx
      rcases List.mem_cons.mp hx with rfl | hx
      · have h1 : y.2 ≤ 0 := hm y (List.mem_cons_self y rest) (by
          simpa using hxp)
        have h2 : a ≤ 0 := hqa (by rw [← hy]; simpa using hxp)
        simpa using add_nonpos h1 h2
      · exact hm x (List.mem_cons_of_mem _ hx) hxp
    · rw [if_neg hy] at hx
      rcases List.mem_cons.mp hx with rfl | hx
      · exact hm _ (List.mem_cons_self _ rest) hxp
      · exact ih q a (fun z hz => hm z (List.mem_cons_of_mem _ hz)) hqa x hx hxp

/-- Aggregated gains of a player are nonpositive when all that player's
    payout amounts are nonpositive, over any accumulator with the same
    property. -/
theorem byPlayer_nonpos_aux (pid : Nat) :
    ∀ (ps : List Payout) (acc : List (Nat × Int)),
      (∀ x ∈ acc, x.1 = pid → x.2 ≤ 0) →
      (∀ p ∈ ps, p.playerId = pid → p.amount ≤ 0) →
      ∀ x ∈ ps.foldl (fun m p => insertGain m p.playerId p.amount) acc,
        x.1 = pid → x.2 ≤ 0 := by
  intro ps
  induction ps with
  | nil => intro acc hacc _ x hx; exact hacc x hx
  | cons p t ih =>
    intro acc hacc hps x hx
    simp only [List.foldl_cons] at hx
    refine ih (insertGain acc p.playerId p.amount) ?_ ?_ x hx
    · exact insertGain_nonpos pid acc p.playerId p.amount hacc
        (fun hp => hps p (List.mem_cons_self p t) hp)
    · exact fun q hq => hps q (List.mem_cons_of_mem _ hq)

/-- Crediting a batch whose entries for one player are all nonpositive leaves
    that player's balance and that player's ledger rows unchanged. -/
theorem applyCredits_skips_nonpos :
    ∀ (bp : List (Nat × Int)) (st : GameState) (pid : Nat),
      (∀ x ∈ bp, x.1 = pid → x.2 ≤ 0) →
      (applyCredits bp st).balances pid = st.balances pid ∧
      (applyCredits bp st).ledger.filter (fun e => e.playerId == pid) =
        st.ledger.filter (fun e => e.playerId == pid) := by
  intro bp
  induction bp with
  | nil => intro st pid _; exact ⟨rfl, rfl⟩
  | cons x t ih =>
    intro st pid hbp
    have hstep : applyCredits (x :: t) st = applyCredits t (creditStep st x) := by
      rfl
    rw [hstep]
    by_cases hx : x.2 ≤ 0
    · have : creditStep st x = st := by
        unfold creditStep
        rw [if_pos hx]
      rw [this]
      exact ih st pid (fun z hz => hbp z (List.mem_cons_of_mem _ hz))
    · have hxpid : x.1 ≠ pid := by
        intro hcon
        exact hx (hbp x (List.mem_cons_self x t) hcon)
      have hcs : creditStep st x =
          { st with
            balances := fun q => if q = x.1 then st.balances q + x.2 else st.balances q
            ledger := st.ledger ++ [⟨x.1, "WIN", x.2⟩] } := by
        unfold creditStep
        rw [if_neg hx]
      rcases ih (creditStep st x) pid
          (fun z hz => hbp z (List.mem_cons_of_mem _ hz)) with ⟨h1, h2⟩
      constructor
      · rw [h1, hcs]
        simp [Ne.symm hxpid]
      · rw [h2, hcs]
        simp only [List.filter_append]
        have : ([(⟨x.1, "WIN", x.2⟩ : LedgerEntry)].filter
            (fun e => e.playerId == pid)) = [] := by
          simp [hxpid]
        rw [this, List.append_nil]

/-- Claim C9: when a non-empty category's pool floors to a zero per-bet
    payout, every payout row of that category carries amount 0, the whole
    category pool flows to carry, aggregated player gains over zero-amount
    payouts are nonpositive and the credit loop skips them, leaving balances
    and WIN ledger rows untouched; and in the committed settlement state —
    whatever the other categories pay — every winning bet of such a category
    is marked settled with payout 0 and its category recorded. -/
theorem c9_zero_payout_winners :
    (∀ pt w cat, (w cat).length ≠ 0 →
      Int.fdiv (catPoolOf pt cat) ((w cat).length : Int) = 0 →
      catPayouts pt w cat = (w cat).map (fun b => ⟨b.id, b.playerId, 0, cat⟩) ∧
      catCarryContrib pt w cat = catPoolOf pt cat) ∧
    (∀ ps pid, (∀ p ∈ ps, p.playerId = pid → p.amount ≤ 0) →
      ∀ x ∈ byPlayer ps, x.1 = pid → x.2 ≤ 0) ∧
    (∀ bp st pid, (∀ x ∈ bp, x.1 = pid → x.2 ≤ 0) →
      (applyCredits bp st).balances pid = st.balances pid ∧
      (applyCredits bp st).ledger.filter (fun e => e.playerId == pid) =
        st.ledger.filter (fun e => e.playerId == pid)) ∧
    (∀ r draw s b cat,
      s.rounds.any (fun row => row.roundId == r && row.settled) = false →
      (s.bets.map (fun q => q.id)).Nodup →
      b ∈ s.bets → b.roundId = r → b.settled = false →
      categoryForBet b.nums b.chance draw.1 draw.2 = some cat →
      Int.fdiv (catPoolOf (settlePotTotal r s) cat)
        ((settleWinners r draw s cat).length : Int) = 0 →
      ∃ b' ∈ (settleTx r draw s).2.bets, b'.id = b.id ∧ b'.settled = true ∧
        b'.payout = 0 ∧ b'.category = some cat) := by
  refine ⟨?_, ?_, ?_, ?_⟩
  · intro pt w cat hne hz
    constructor
    · unfold catPayouts
      rw [hz]
    · unfold catCarryContrib
      rw [if_neg hne, hz, zero_mul, sub_zero]
  · intro ps pid hps x hx
    exact byPlayer_nonpos_aux pid ps [] (by simp) hps x hx
  · exact applyCredits_skips_nonpos
  · intro r draw s b cat hfresh hnodup hb hbr hbs hcat hz
    have hbrb : b ∈ roundBets r s := by
      unfold roundBets
      rw [List.mem_filter]
      exact ⟨hb, by simp [hbr, hbs]⟩
    have hbw : b ∈ settleWinners r draw s cat := by
      unfold settleWinners
      rw [List.mem_filter]
      exact ⟨hbrb, by simp [hcat]⟩
    have hcatmem : cat ∈ CATS := categoryForBet_mem_CATS _ _ _ _ _ hcat
    have hentry := settlePayouts_winner_mem r draw s cat b hcatmem hbw
    rw [hz] at hentry
    have htargetzero : ∀ p ∈ settlePayouts r draw s, p.betId = b.id →
        p.amount = 0 ∧ p.category = cat := by
      intro p hp hpid
      obtain ⟨cat', hcat', b2, hb2, rfl⟩ := settlePayouts_mem_char r draw s p hp
      obtain ⟨hb2bets, _, _, hb2cat⟩ := settleWinners_mem r draw s cat' b2 hb2
      have hb2b : b2 = b :=
        List.inj_on_of_nodup_map hnodup hb2bets hb (by simpa using hpid)
      subst hb2b
      have hcc : cat' = cat := Option.some.inj (hb2cat.symm.trans hcat)
      subst hcc
      exact ⟨hz, rfl⟩
    rw [settleTx_bets r draw s hfresh]
    exact markSettled_records_zero r (settlePayouts r draw s) s.bets b cat hb
      hbr hbs ⟨_, hentry, rfl⟩ htargetzero

/-- Witness for the C9 theorem: in `c9State` (stakes 3 and 4, both "4+1"
    winners) the pot total is 4, the "4+1" pool is 1, the per-bet payout
    floors to 0, and the committed settlement marks bet 1 settled with payout
    0 and category "4+1" recorded. -/
theorem c9_zero_payout_winners_witness :
    c9State.rounds.any (fun row => row.roundId == 0 && row.settled) = false ∧
    (c9State.bets.map (fun q => q.id)).Nodup ∧
    Int.fdiv (catPoolOf (settlePotTotal 0 c9State) "4+1")
      ((settleWinners 0 ([1, 2, 3, 4], 1) c9State "4+1").length : Int) = 0 ∧
    ∃ b' ∈ (settleTx 0 ([1, 2, 3, 4], 1) c9State).2.bets, b'.id = 1 ∧
      b'.settled = true ∧ b'.payout = 0 ∧ b'.category = some "4+1" :=
  ⟨by decide, by decide, by decide,
    c9_zero_payout_winners.2.2.2 0 ([1, 2, 3, 4], 1) c9State
      ⟨1, 1, 0, some [1, 2, 3, 4], some 1, 3, false, 0, none⟩ "4+1"
      (by decide) (by decide) (by decide) (by decide) (by decide) (by decide)
      (by decide)⟩

/-- The credit loop never touches the rounds table. -/
theorem applyCredits_rounds :
    ∀ (bp : List (Nat × Int)) (st : GameState),
      (applyCredits bp st).rounds = st.rounds := by
  intro bp
  induction bp with
  | nil => intro st; rfl
  | cons x t ih =>
    intro st
    have hstep : applyCredits (x :: t) st = applyCredits t (creditStep st x) := rfl
    rw [hstep, ih]
    unfold creditStep
    by_cases hx : x.2 ≤ 0
    · rw [if_pos hx]
    · rw [if_neg hx]

/-- After upserting a settled row, the rounds table contains a settled row
    for that round id. -/
theorem any_upsertRound (row : RoundRow) (l : List RoundRow)
    (hs : row.settled = true) :
    (upsertRound row l).any (fun q => q.roundId == row.roundId && q.settled) =
      true := by
  unfold upsertRound
  by_cases h : l.any (fun q => q.roundId == row.roundId) = true
  · rw [if_pos h]
    rcases List.any_eq_true.mp h with ⟨x, hx, hpred⟩
    refine List.any_eq_true.mpr ⟨row, ?_, by simp [hs]⟩
    exact List.mem_map.mpr ⟨x, hx, by rw [if_pos hpred]⟩
  · rw [if_neg h]
    refine List.any_eq_true.mpr ⟨row, ?_, by simp [hs]⟩
    simp

/-- A settlement that runs leaves the rounds table with a settled row for the
    target round, whether it commits or was already settled. -/
theorem settleTx_state_settled (r : Int) (draw : List Int × Int)
    (s : GameState) :
    ((settleTx r draw s).2).rounds.any
      (fun q => q.roundId == r && q.settled) = true ∨
    (settleTx r draw s) = (.alreadySettled, s) := by
  unfold settleTx
  by_cases hx : s.rounds.any (fun row => row.roundId == r && row.settled) = true
  · rw [if_pos hx]
    exact Or.inr rfl
  · rw [if_neg hx]
    left
    simp only [commitState, applyCredits_rounds]
    exact any_upsertRound _ s.rounds rfl

/-- A settlement on a state whose rounds table already holds a settled row
    for the target round rolls back: same state, `alreadySettled` response. -/
theorem settleTx_already (r : Int) (draw : List Int × Int) (s : GameState)
    (h : s.rounds.any (fun row => row.roundId == r && row.settled) = true) :
    settleTx r draw s = (.alreadySettled, s) := by
  unfold settleTx
  rw [if_pos h]

/-- Claim C2: once a settle of round `r` has committed, every further settle
    call for `r` (at any time past the round end, with any draw) returns
    `alreadySettled` and leaves the entire state — balances, bets, bank,
    rounds — unchanged. -/
theorem c2_settle_idempotent (cfg : TimingConfig) (n1 n2 r : Int)
    (d1 d2 : List Int × Int) (s : GameState)
    (h1 : (settleHandler cfg n1 (some r) d1 s).1.isCommitted = true)
    (h2 : (getRoundById cfg r n2).roundEndMs ≤ n2) :
    settleHandler cfg n2 (some r) d2 (settleHandler cfg n1 (some r) d1 s).2 =
      (SettleResp.alreadySettled, (settleHandler cfg n1 (some r) d1 s).2) := by
  have hmatch : ∀ (n : Int) (d : List Int × Int) (s' : GameState),
      settleHandler cfg n (some r) d s' =
        if r < 0 then (.badRequest, s')
        else if n < (getRoundById cfg r n).roundEndMs then (.notEnded, s')
        else settleTx r d s' := fun _ _ _ => rfl
  rw [hmatch] at h1
  rw [hmatch, hmatch]
  by_cases hr : r < 0
  · rw [if_pos hr] at h1
    exact absurd h1 (by simp [SettleResp.isCommitted])
  · rw [if_neg hr] at h1 ⊢
    by_cases he1 : n1 < (getRoundById cfg r n1).roundEndMs
    · rw [if_pos he1] at h1
      exact absurd h1 (by simp [SettleResp.isCommitted])
    · rw [if_neg he1] at h1 ⊢
      have he2 : ¬ n2 < (getRoundById cfg r n2).roundEndMs := not_lt.mpr h2
      rw [if_neg he2, if_neg hr]
      have hsettled : ((settleTx r d1 s).2).rounds.any
          (fun q => q.roundId == r && q.settled) = true := by
        rcases settleTx_state_settled r d1 s with hgood | heq
        · exact hgood
        · rw [heq] at h1
          exact absurd h1 (by simp [SettleResp.isCommitted])
      exact settleTx_already r d2 (settleTx r d1 s).2 hsettled

/-- Appending one ledger row adds its amount to exactly its player's sum. -/
theorem ledgerSum_append_single (l : List LedgerEntry) (e : LedgerEntry)
    (pid : Nat) :
    ledgerSum (l ++ [e]) pid =
      ledgerSum l pid + (if e.playerId = pid then e.amount else 0) := by
  unfold ledgerSum
  rw [List.filter_append]
  by_cases h : e.playerId = pid
  · simp [h]
  · simp [h]

/-- A player with no ledger rows has ledger sum zero. -/
theorem ledgerSum_of_not_mem (l : List LedgerEntry) (pid : Nat)
    (h : ∀ e ∈ l, e.playerId ≠ pid) : ledgerSum l pid = 0 := by
  unfold ledgerSum
  have hf : l.filter (fun e => e.playerId == pid) = [] := by
    rw [List.filter_eq_nil_iff]
    intro e he
    simpa using h e he
  rw [hf]
  rfl

/-- Crediting one player and appending the matching ledger row preserves the
    ledger/balance invariant. -/
theorem invariant_credit (s : GameState) (pid : Nat) (k : String) (amt : Int)
    (hs : ledgerInvariant s) :
    ledgerInvariant
      { s with
        balances := fun q => if q = pid then s.balances q + amt else s.balances q
        ledger := s.ledger ++ [⟨pid, k, amt⟩] } := by
  intro q
  show (if q = pid then s.balances q + amt else s.balances q) =
    ledgerSum (s.ledger ++ [⟨pid, k, amt⟩]) q
  rw [ledgerSum_append_single]
  by_cases h : q = pid
  · subst h
    rw [if_pos rfl, if_pos rfl, hs q]
  · rw [if_neg h, if_neg (fun hc => h hc.symm), add_zero, hs q]

/-- The settlement credit loop preserves the ledger/balance invariant. -/
theorem applyCredits_invariant :
    ∀ (bp : List (Nat × Int)) (st : GameState),
      ledgerInvariant st → ledgerInvariant (applyCredits bp st) := by
  intro bp
  induction bp with
  | nil => intro st h; exact h
  | cons x t ih =>
    intro st h
    have hstep : applyCredits (x :: t) st = applyCredits t (creditStep st x) := rfl
    rw [hstep]
    refine ih _ ?_
    unfold creditStep
    by_cases hx : x.2 ≤ 0
    · rw [if_pos hx]
      exact h
    · rw [if_neg hx]
      exact invariant_credit st x.1 "WIN" x.2 h

/-- Writing bank and rounds does not affect the ledger/balance invariant. -/
theorem commitState_invariant (st : GameState) (bank' : Bank) (row : RoundRow)
    (h : ledgerInvariant st) : ledgerInvariant (commitState st bank' row) :=
  fun q => h q

/-- The settlement transaction preserves the ledger/balance invariant. -/
theorem settleTx_invariant (r : Int) (d : List Int × Int) (s : GameState)
    (hs : ledgerInvariant s) : ledgerInvariant (settleTx r d s).2 := by
  unfold settleTx
  by_cases hx : s.rounds.any (fun row => row.roundId == r && row.settled) = true
  · rw [if_pos hx]
    exact hs
  · rw [if_neg hx]
    exact commitState_invariant _ _ _
      (applyCredits_invariant _ _ (fun q => hs q))

/-- The bet transaction preserves the ledger/balance invariant. -/
theorem placeBetTx_invariant (roundId : Int) (pid : Nat) (cost : Int)
    (spec : BetRequestParse) (nb : Nat) (s : GameState)
    (hs : ledgerInvariant s) :
    ledgerInvariant (placeBetTx roundId pid cost spec nb s).2 := by
  unfold placeBetTx
  by_cases h4 : s.hasPlayer pid = false
  · rw [if_pos h4]
    exact hs
  · rw [if_neg h4]
    by_cases h5 : s.active pid = false
    · rw [if_pos h5]
      exact hs
    · rw [if_neg h5]
      by_cases h6 : s.balances pid < cost
      · rw [if_pos h6]
        exact hs
      · rw [if_neg h6]
        intro q
        show (if q = pid then s.balances q - cost else s.balances q) =
          ledgerSum (s.ledger ++ [⟨pid, "BET", -cost⟩]) q
        rw [ledgerSum_append_single]
        by_cases h : q = pid
        · subst h
          rw [if_pos rfl, if_pos rfl, hs q]
          ring
        · rw [if_neg h, if_neg (fun hc => h hc.symm), add_zero, hs q]

/-- The gift-code application preserves the ledger/balance invariant. -/
theorem redeemApply_invariant (nowMs : Int) (pid : Nat) (g : GiftCode)
    (s : GameState) (hs : ledgerInvariant s) :
    ledgerInvariant (redeemApply nowMs pid g s).2 := by
  unfold redeemApply
  by_cases h5 : g.status ≠ "ACTIVE"
  · rw [if_pos h5]
    exact hs
  · rw [if_neg h5]
    by_cases h6 : (match g.expiresAt with
        | some e => decide (e < nowMs)
        | none => false) = true
    · rw [if_pos h6]
      exact hs
    · rw [if_neg h6]
      intro q
      show (if q = pid then s.balances q + g.value else s.balances q) =
        ledgerSum (s.ledger ++ [⟨pid, "REDEEM", g.value⟩]) q
      rw [ledgerSum_append_single]
      by_cases h : q = pid
      · subst h
        rw [if_pos rfl, if_pos rfl, hs q]
      · rw [if_neg h, if_neg (fun hc => h hc.symm), add_zero, hs q]

/-- Claim C5: the ledger/balance invariant `balance == Σ ledger.amount` is
    preserved by every state-changing operation — signup (with a nonnegative
    bonus and a fresh player id), placeBet, redeem, and settlement — whether
    the operation commits or rejects. -/
theorem c5_ledger_balance_invariant :
    (∀ bonus pid s, 0 ≤ bonus → (∀ e ∈ s.ledger, e.playerId ≠ pid) →
      ledgerInvariant s → ledgerInvariant (signupTx bonus pid s)) ∧
    (∀ cfg nowMs pid amt nr ch cr nb s, ledgerInvariant s →
      ledgerInvariant (placeBetHandler cfg nowMs pid amt nr ch cr nb s).2) ∧
    (∀ nowMs pid code s, ledgerInvariant s →
      ledgerInvariant (redeemHandler nowMs pid code s).2) ∧
    (∀ cfg nowMs rq d s, ledgerInvariant s →
      ledgerInvariant (settleHandler cfg nowMs rq d s).2) := by
  refine ⟨?_, ?_, ?_, ?_⟩
  · intro bonus pid s hbonus hfresh hs
    unfold signupTx
    by_cases hb : 0 < bonus
    · rw [if_pos hb]
      intro q
      show (if q = pid then bonus else s.balances q) =
        ledgerSum (s.ledger ++ [⟨pid, "BONUS_SIGNUP", bonus⟩]) q
      rw [ledgerSum_append_single]
      by_cases h : q = pid
      · subst h
        rw [if_pos rfl, if_pos rfl, ledgerSum_of_not_mem s.ledger q hfresh,
          zero_add]
      · rw [if_neg h, if_neg (fun hc => h hc.symm), add_zero, hs q]
    · rw [if_neg hb]
      have hz : bonus = 0 := le_antisymm (not_lt.mp hb) hbonus
      intro q
      show (if q = pid then bonus else s.balances q) = ledgerSum s.ledger q
      by_cases h : q = pid
      · subst h
        rw [if_pos rfl, ledgerSum_of_not_mem s.ledger q hfresh, hz]
      · rw [if_neg h, hs q]
  · intro cfg nowMs pid amt nr ch cr nb s hs
    unfold placeBetHandler
    by_cases h1 : (getRoundInfo cfg nowMs).betsOpen = false
    · rw [if_pos h1]
      exact hs
    · rw [if_neg h1]
      by_cases h2 : ¬ 0 < pid
      · rw [if_pos h2]
        exact hs
      · rw [if_neg h2]
        by_cases h3 : ¬ 0 < amt
        · rw [if_pos h3]
          exact hs
        · rw [if_neg h3]
          cases hp : parseBetRequest nr ch cr with
          | none => exact hs
          | some spec =>
            exact placeBetTx_invariant (getRoundInfo cfg nowMs).roundId
              pid.toNat amt spec nb s hs
  · intro nowMs pid code s hs
    unfold redeemHandler
    by_cases h1 : ¬ 0 < pid
    · rw [if_pos h1]
      exact hs
    · rw [if_neg h1]
      by_cases h2 : redeemFormatOk (jsNormalize code) = false
      · rw [if_pos h2]
        exact hs
      · rw [if_neg h2]
        by_cases h3 : s.hasPlayer pid.toNat = false
        · rw [if_pos h3]
          exact hs
        · rw [if_neg h3]
          by_cases h4 : s.active pid.toNat = false
          · rw [if_pos h4]
            exact hs
          · rw [if_neg h4]
            cases hg : s.giftCodes.find? (fun g => g.code == jsNormalize code) with
            | none => exact hs
            | some g => exact redeemApply_invariant nowMs pid.toNat g s hs
  · intro cfg nowMs rq d s hs
    cases rq with
    | some x =>
      have hmatch : settleHandler cfg nowMs (some x) d s =
          if x < 0 then (.badRequest, s)
          else if nowMs < (getRoundById cfg x nowMs).roundEndMs then
            (.notEnded, s)
          else settleTx x d s := rfl
      rw [hmatch]
      by_cases h1 : x < 0
      · rw [if_pos h1]
        exact hs
      · rw [if_neg h1]
        by_cases h2 : nowMs < (getRoundById cfg x nowMs).roundEndMs
        · rw [if_pos h2]
          exact hs
        · rw [if_neg h2]
          exact settleTx_invariant x d s hs
    | none =>
      have hmatch : settleHandler cfg nowMs none d s =
          if (getRoundInfo cfg nowMs).roundId - 1 < 0 then (.badRequest, s)
          else if nowMs < (getRoundById cfg
              ((getRoundInfo cfg nowMs).roundId - 1) nowMs).roundEndMs then
            (.notEnded, s)
          else settleTx ((getRoundInfo cfg nowMs).roundId - 1) d s := rfl
      rw [hmatch]
      by_cases h1 : (getRoundInfo cfg nowMs).roundId - 1 < 0
      · rw [if_pos h1]
        exact hs
      · rw [if_neg h1]
        by_cases h2 : nowMs < (getRoundById cfg
            ((getRoundInfo cfg nowMs).roundId - 1) nowMs).roundEndMs
        · rw [if_pos h2]
          exact hs
        · rw [if_neg h2]
          exact settleTx_invariant _ d s hs

/-- Witness for the C5 theorem: signup with bonus 50 on the empty state keeps
    the invariant, as does a settling call. -/
theorem c5_ledger_balance_invariant_witness :
    (0 : Int) ≤ 50 ∧
    (∀ e ∈ emptyState.ledger, e.playerId ≠ 1) ∧
    ledgerInvariant emptyState ∧
    ledgerInvariant (signupTx 50 1 emptyState) :=
  ⟨by decide, fun e he => absurd he (by simp [emptyState]),
    fun pid => by simp [emptyState, ledgerSum],
    c5_ledger_balance_invariant.1 50 1 emptyState (by decide)
      (fun e he => absurd he (by simp [emptyState]))
      (fun pid => by simp [emptyState, ledgerSum])⟩

/-- Witness for the C2 theorem: settling round 0 at time 300000 on the empty
    state commits, and the identical second call is `alreadySettled` on the
    unchanged state. -/
theorem c2_settle_idempotent_witness :
    (settleHandler cfg300 300000 (some 0) ([1, 2, 3, 4], 1) emptyState).1.isCommitted = true ∧
    (getRoundById cfg300 0 300000).roundEndMs ≤ 300000 ∧
    settleHandler cfg300 300000 (some 0) ([1, 2, 3, 4], 1)
        (settleHandler cfg300 300000 (some 0) ([1, 2, 3, 4], 1) emptyState).2 =
      (SettleResp.alreadySettled,
        (settleHandler cfg300 300000 (some 0) ([1, 2, 3, 4], 1) emptyState).2) :=
  ⟨by decide, by decide,
    c2_settle_idempotent cfg300 300000 300000 0 ([1, 2, 3, 4], 1)
      ([1, 2, 3, 4], 1) emptyState (by decide) (by decide)⟩

end DDJ
